import Mathlib

/-!
Verification development for the `being` motion editor core.

Shallow embedding of the JavaScript sources:
  - `src/unnamed/part_000` (`/static/js/spline.js`):  `BPoly` spline model
  - `src/being/web/static/components/motion_editor/motion_editor.js`:
    pure spline helpers (`scale_spline`, `stretch_spline`, `shift_spline`,
    `zoom_bbox_in_place`) and the editor message handlers
  - `src/static/js/curver.js`: viewport transform (`update_trafo`,
    `transform_point`, `mouse_coordinates`)

JS numbers are modelled with exact rationals (the special value `-Infinity`
that one call site uses is modelled by an explicit extended-number type);
the drag-navigation controller, which uses `Math.exp`, is modelled over the
reals.  Collaborating modules that are not part of the given sources
(`transport.js`, `history.js`, `bbox.js`, `math.js`, `array.js`) are modelled
from the specification; their definitions say so in their doc comments.
-/

namespace Being

/-! Section: Array / math utilities

`array_min`, `array_max` (math.js), `multiply_scalar`, `array_reshape`,
`array_shape` (array.js) and `clip` (math.js) are utility modules imported by
the sources but not themselves among the given files.

Modelled from the spec and their call sites:
  - `array_min(arr)` / `array_max(arr)` = `Math.min(...arr)` / `Math.max(...arr)`;
  - `multiply_scalar(factor, arr)` multiplies every element of a flat array;
  - `array_reshape(flat, shape)` re-nests a flat array to a `[rows][cols]` shape;
  - `array_shape(nested)` returns `[rows, cols]`;
  - `clip(value, lower, upper)` clamps `value` into `[lower, upper]`.
-/

/-- The `Math.min(...arr)` over a nonempty array (`0` for the empty array, which
well-formedness rules out). -/
def array_min : List ℚ → ℚ
  | [] => 0
  | a :: r => r.foldl min a

/-- The `Math.max(...arr)` over a nonempty array (`0` for the empty array). -/
def array_max : List ℚ → ℚ
  | [] => 0
  | a :: r => r.foldl max a

/-- The `multiply_scalar(factor, arr)`: elementwise scalar multiplication of a
flat numeric array (returns a fresh array in JS). -/
def multiply_scalar (factor : ℚ) (arr : List ℚ) : List ℚ :=
  arr.map (fun v => factor * v)

/-- The `array_reshape(flat, [rows, cols])`: chunk a flat array into `rows` rows
of `cols` entries each. -/
def array_reshape2 : Nat → Nat → List ℚ → List (List ℚ)
  | 0, _, _ => []
  | r + 1, cols, l => l.take cols :: array_reshape2 r cols (l.drop cols)

/-- The `array_shape(c)` for a 2-dimensional nested array: `[rows, cols]`. -/
def array_shape2 (c : List (List ℚ)) : Nat × Nat :=
  (c.length, c.headI.length)

/-- The `clip(value, lower, upper) = Math.max(lower, Math.min(upper, value))`. -/
def clip (value lower upper : ℚ) : ℚ :=
  max lower (min upper value)

/-! Section: Bounding box

Modelled from the spec: `bbox.js` is not among the given sources.  §3:
"Two corners `(lowerLeft, upperRight)`"; accessors `left`/`right`/`width`/
`height`/`size` as used by the call sites in `curver.js` and
`motion_editor.js` (`left = ll[0]`, `right = ur[0]`, `size = [width, height]`). -/
structure BBox where
  ll : ℚ × ℚ
  ur : ℚ × ℚ
  deriving DecidableEq, Repr

def BBox.left (b : BBox) : ℚ := b.ll.1

def BBox.right (b : BBox) : ℚ := b.ur.1

def BBox.width (b : BBox) : ℚ := b.ur.1 - b.ll.1

def BBox.height (b : BBox) : ℚ := b.ur.2 - b.ll.2

def BBox.size (b : BBox) : ℚ × ℚ := (b.width, b.height)

/-! Section: Spline model (`BPoly`, from `src/unnamed/part_000`)

Coefficients are modelled as a 2-dimensional `[order][n_segments]` array of
ordinates (the optional extra channel axis of multi-channel curves is not
needed by any claim). -/

/-- The `BPoly` wrapper: coefficient array `c` of shape `[order][n_segments]` and
knot array `x` (the `extrapolate` / `axis` fields carry no semantics in the
sources and are omitted). -/
structure BPoly where
  c : List (List ℚ)
  x : List ℚ
  deriving DecidableEq, Repr

namespace BPoly

/-- The `get order() { return c.length }` -/
def order (s : BPoly) : Nat := s.c.length

/-- The `get degree() { return c.length - 1 }` -/
def degree (s : BPoly) : Nat := s.c.length - 1

/-- The `get start() { return this.x[0]; }` -/
def start (s : BPoly) : ℚ := s.x.headI

/-- The `get end() { return last_element(this.x); }` (`end` is a Lean keyword). -/
def endT (s : BPoly) : ℚ := s.x.getLastD 0

/-- The `get duration() { return this.end - this.start; }` -/
def duration (s : BPoly) : ℚ := s.endT - s.start

/-- The `get n_segments() { return this.x.length - 1; }` -/
def n_segments (s : BPoly) : Nat := s.x.length - 1

/-- The `get min() { return array_min(this.c.flat()); }` -/
def min (s : BPoly) : ℚ := array_min s.c.flatten

/-- The `get max() { return array_max(this.c.flat()); }` -/
def max (s : BPoly) : ℚ := array_max s.c.flatten

/-- The `bbox() { return new BBox([this.start, this.min], [this.end, this.max]); }` -/
def bbox (s : BPoly) : BBox := ⟨(s.start, s.min), (s.endT, s.max)⟩

end BPoly

/-- Well-formed spline (§3 invariants): at least two knots, knots strictly
increasing, a nonempty coefficient array whose rows (leading dimension =
order) all have length `n_segments = x.length - 1`. -/
def WellFormed (s : BPoly) : Prop :=
  2 ≤ s.x.length ∧ s.x.Chain' (· < ·) ∧ s.c ≠ [] ∧
    ∀ row ∈ s.c, row.length = s.x.length - 1

/-! Section: Pure spline helpers from `motion_editor.js` -/

/-- The `zoom_bbox_in_place(bbox, factor)`: rescale the horizontal extent of the
box about its midpoint (the vertical fields are untouched).  The JS function
mutates `bbox` in place; its effect is the returned value. -/
def zoom_bbox_in_place (bbox : BBox) (factor : ℚ) : BBox :=
  let mid := (1 / 2) * (bbox.left + bbox.right)
  { bbox with
    ll := (1 / factor * (bbox.left - mid) + mid, bbox.ll.2)
    ur := (1 / factor * (bbox.right - mid) + mid, bbox.ur.2) }

/-- The `scale_spline(spline, factor)`: flatten the coefficient array, multiply
by `factor`, reshape back to the original shape; knots are passed through
unchanged (`new BPoly(scaledCoeffs, spline.x)`). -/
def scale_spline (spline : BPoly) (factor : ℚ) : BPoly :=
  let shape := array_shape2 spline.c
  ⟨array_reshape2 shape.1 shape.2 (multiply_scalar factor spline.c.flatten), spline.x⟩

/-- The `stretch_spline(spline, factor)`: multiply all knots by `factor`; the
coefficient array is passed through unchanged (`new BPoly(spline.c, stretchedKnots)`). -/
def stretch_spline (spline : BPoly) (factor : ℚ) : BPoly :=
  ⟨spline.c, multiply_scalar factor spline.x⟩

/-- JS number extended with `-Infinity`, which the `first_page` toolbar
handler passes to `shift_spline`. -/
inductive NumJS where
  | negInf : NumJS
  | val : ℚ → NumJS
  deriving DecidableEq, Repr

/-- The `Math.max(offset, b)` for a possibly `-Infinity` first argument. -/
def NumJS.maxWith (offset : NumJS) (b : ℚ) : ℚ :=
  match offset with
  | .negInf => b
  | .val q => Max.max q b

/-- The `shift_spline(spline, offset)`: clamp the offset to `max(offset, -start)`
and add it to every knot; the coefficient array is passed through unchanged. -/
def shift_spline (spline : BPoly) (offset : NumJS) : BPoly :=
  let start := spline.x.headI
  let offset' := offset.maxWith (-start)
  ⟨spline.c, spline.x.map (fun pos => pos + offset')⟩

/-! Section: Viewport transform (`CurverBase`, from `src/static/js/curver.js`) -/

/-- View port margin on all sides (`const MARGIN = 50`). -/
def MARGIN : ℚ := 50

/-- Affine 2D matrix in `DOMMatrix` layout: maps `(x, y)` to
`(a*x + c*y + e, b*x + d*y + f)`. -/
structure DOMMat where
  a : ℚ
  b : ℚ
  c : ℚ
  d : ℚ
  e : ℚ
  f : ℚ
  deriving DecidableEq, Repr

/-- The `DOMPoint.matrixTransform`: apply an affine matrix to a point. -/
def DOMMat.applyPt (m : DOMMat) (p : ℚ × ℚ) : ℚ × ℚ :=
  (m.a * p.1 + m.c * p.2 + m.e, m.b * p.1 + m.d * p.2 + m.f)

/-- The `DOMMatrix.inverse()` for an affine 2D matrix (exact inverse when the
determinant is nonzero; JS would produce a NaN matrix otherwise). -/
def DOMMat.inverseM (m : DOMMat) : DOMMat :=
  let det := m.a * m.d - m.b * m.c
  { a := m.d / det
    b := -m.b / det
    c := -m.c / det
    d := m.a / det
    e := (m.c * m.f - m.d * m.e) / det
    f := (m.b * m.e - m.a * m.f) / det }

/-- The `CurverBase.update_trafo()`: from the graph client size and current
viewport box, compute scale factors `[sx, sy] = divide_arrays([width - 2 *
MARGIN, height - 2 * MARGIN], viewport.size)`; keep the previous transform
pair when a factor is zero or not finite (in exact rational arithmetic the
not-finite case collapses into the zero case, since division by a zero
viewport extent yields `0` rather than `Infinity`); otherwise store the new
forward matrix and its inverse. -/
def update_trafo (width height : ℚ) (viewport : BBox) (old : DOMMat × DOMMat) :
    DOMMat × DOMMat :=
  let sx := (width - 2 * MARGIN) / viewport.size.1
  let sy := (height - 2 * MARGIN) / viewport.size.2
  if sx = 0 ∨ sy = 0 then
    old
  else
    let trafo : DOMMat :=
      { a := sx, b := 0, c := 0, d := -sy
        e := -sx * viewport.ll.1 + MARGIN
        f := sy * (viewport.ll.2 + viewport.height) + MARGIN }
    (trafo, trafo.inverseM)

/-- The `CurverBase.transform_point(pt)`: data space -> view (pixel) space via the
stored forward matrix `trafo`. -/
def transform_point (trafo : DOMMat) (pt : ℚ × ℚ) : ℚ × ℚ :=
  trafo.applyPt pt

/-- The `CurverBase.mouse_coordinates(evt)` without the DOM event plumbing: the
canvas-relative pixel position is mapped through the stored inverse matrix
`trafoInv` into data space. -/
def mouse_coordinates (trafoInv : DOMMat) (pixel : ℚ × ℚ) : ℚ × ℚ :=
  trafoInv.applyPt pixel

/-! Section: Transport state machine

Modelled from the spec: `transport.js` is not among the given sources.  §3
"Transport" and the §4.4 transition table: states `Paused` (initial),
`Playing`, `Recording`; `pause()` and `stop()` transition to `Paused`
(rows "Playing | pause()/stop() | Paused" and "Recording | stop() | Paused");
`move(externalTimestamp)` maps external time to curve-space position using
`externalTimestamp - startTime`, wrapping modulo `duration` when `looping`,
and is the sole writer of `position` while playing. -/

/-- Transport states (`PAUSED`, `PLAYING`, `RECORDING` constants of
`transport.js`). -/
inductive TransportState where
  | PAUSED : TransportState
  | PLAYING : TransportState
  | RECORDING : TransportState
  deriving DecidableEq, Repr

export TransportState (PAUSED PLAYING RECORDING)

/-- Modelled from the spec: the transport record of §3 (owns `state`,
`position`, `duration`, `looping`, `startTime`). -/
structure Transport where
  state : TransportState
  position : ℚ
  duration : ℚ
  looping : Bool
  startTime : ℚ
  deriving DecidableEq, Repr

namespace Transport

/-- The `get paused()`. -/
def paused (t : Transport) : Bool := t.state = PAUSED

/-- The `get playing()`. -/
def playing (t : Transport) : Bool := t.state = PLAYING

/-- The `get recording()`. -/
def recording (t : Transport) : Bool := t.state = RECORDING

/-- Modelled from the spec: `pause()` transitions to `Paused`. -/
def pause (t : Transport) : Transport := { t with state := PAUSED }

/-- Modelled from the spec: `stop()` transitions to `Paused` from any state
(transition rows for `stop()` in §4.4). -/
def stop (t : Transport) : Transport := { t with state := PAUSED }

/-- Floating `%` on rationals: `a mod b` with the sign conventions irrelevant
here (only used on nonnegative operands in the looping branch). -/
def fmod (a b : ℚ) : ℚ := a - b * ⌊a / b⌋

/-- Modelled from the spec: `move(externalTimestamp)` sets `position` to
`externalTimestamp - startTime`, wrapped modulo `duration` when `looping`,
and returns the new position. -/
def move (t : Transport) (timestamp : ℚ) : Transport × ℚ :=
  let pos := timestamp - t.startTime
  let pos := if t.looping then fmod pos t.duration else pos
  ({ t with position := pos }, pos)

end Transport

/-! Section: Editor message handlers (from `motion_editor.js`) -/

/-- Periodic external tick message (§6): `{timestamp, values}`. -/
structure DataMsg where
  timestamp : ℚ
  values : List ℚ

/-- Periodic behavior notice (§6): `{active}`. -/
structure BehaviorMsg where
  active : Bool

/-- The editor state touched by the external message handlers: the transport
and the recorded trajectory (the plot lines are pure rendering and are not
modelled). -/
structure EditorState where
  transport : Transport
  recordedTrajectory : List (List ℚ)
  deriving Repr

/-- The `Editor.new_data(msg)`: move the transport to the message timestamp; if
playing beyond the duration, stop the transport; if recording, append
`[t, ...selected values]` to the recorded trajectory (the line-plot updates of
the paused/playing branches are rendering only).  `outputIndices` stands for
`this.motorSelector.selected_value_output_indices()`. -/
def new_data (st : EditorState) (msg : DataMsg) (outputIndices : List Nat) :
    EditorState :=
  let mv := st.transport.move msg.timestamp
  let tr := mv.1
  let t := mv.2
  let tr := if tr.playing ∧ t > tr.duration then tr.stop else tr
  let traj :=
    if tr.recording then
      st.recordedTrajectory ++ [t :: outputIndices.map (fun i => msg.values.getD i 0)]
    else
      st.recordedTrajectory
  ⟨tr, traj⟩

/-- The `Editor.new_behavior_message(behavior)`: force-stop the transport when the
behavior is active. -/
def new_behavior_message (st : EditorState) (behavior : BehaviorMsg) : EditorState :=
  if behavior.active then { st with transport := st.transport.stop } else st

/-- Observable side effects of the editor methods towards the back end / UI. -/
inductive Effect where
  | stopPlaybackRequest : Effect
  | uiUpdate : Effect
  deriving DecidableEq, Repr

/-- The `Editor.stop_spline_playback()`: when the transport is not paused, issue
the back-end stop request, pause the transport and refresh the UI; otherwise
do nothing at all. -/
def stop_spline_playback (t : Transport) : Transport × List Effect :=
  if ¬ t.paused then
    (t.pause, [Effect.stopPlaybackRequest, Effect.uiUpdate])
  else
    (t, [])

/-- The `n` successive calls of `stop_spline_playback`, collecting all emitted
effects. -/
def iterate_stop_spline_playback : Nat → Transport → Transport × List Effect
  | 0, t => (t, [])
  | n + 1, t =>
    let r := stop_spline_playback t
    let r' := iterate_stop_spline_playback n r.1
    (r'.1, r.2 ++ r'.2)

/-! Section: Heap model for array aliasing

JS arrays are heap objects passed by reference; `new BPoly(spline.c,
stretchedKnots)` shares the caller's coefficient array, while `deep_copy`
allocates fresh storage.  To state the frame-effect claims, the spline
operations are replayed over an explicit store of coefficient arrays and knot
arrays addressed by ids; a `Ref` is a `BPoly` object holding references to
its two arrays. -/

/-- Heap of 2D coefficient arrays (`c2`) and 1D knot arrays (`x1`); an
array id is its index, allocation appends. -/
structure Store where
  c2 : List (List (List ℚ))
  x1 : List (List ℚ)
  deriving DecidableEq, Repr

/-- A `BPoly` object: references to its coefficient array and knot array. -/
structure Ref where
  cId : Nat
  xId : Nat
  deriving DecidableEq, Repr

namespace Store

/-- Read a coefficient array. -/
def getC (st : Store) (i : Nat) : List (List ℚ) := st.c2.getD i []

/-- Read a knot array. -/
def getX (st : Store) (i : Nat) : List ℚ := st.x1.getD i []

/-- Overwrite a coefficient array in place (in-place JS array mutation). -/
def setC (st : Store) (i : Nat) (v : List (List ℚ)) : Store :=
  { st with c2 := st.c2.set i v }

/-- Overwrite a knot array in place. -/
def setX (st : Store) (i : Nat) (v : List ℚ) : Store :=
  { st with x1 := st.x1.set i v }

/-- Allocate a fresh coefficient array; returns its id. -/
def allocC (st : Store) (v : List (List ℚ)) : Store × Nat :=
  ({ st with c2 := st.c2 ++ [v] }, st.c2.length)

/-- Allocate a fresh knot array; returns its id. -/
def allocX (st : Store) (v : List ℚ) : Store × Nat :=
  ({ st with x1 := st.x1 ++ [v] }, st.x1.length)

/-- Dereference a `BPoly` object into its structural value. -/
def valueOf (st : Store) (r : Ref) : BPoly :=
  ⟨st.getC r.cId, st.getX r.xId⟩

end Store

/-- The `BPoly.copy()`: `new BPoly(deep_copy(this.c), deep_copy(this.x), ...)` —
both arrays are duplicated into fresh storage. -/
def copy_heap (st : Store) (r : Ref) : Store × Ref :=
  let ac := st.allocC (st.getC r.cId)
  let ax := ac.1.allocX (ac.1.getX r.xId)
  (ax.1, ⟨ac.2, ax.2⟩)

/-- The `stretch_spline` over the store: allocates the stretched knot array
(`multiply_scalar` maps into a fresh array) but reuses the input's
coefficient array (`new BPoly(spline.c, stretchedKnots)`). -/
def stretch_spline_heap (st : Store) (r : Ref) (factor : ℚ) : Store × Ref :=
  let ax := st.allocX (multiply_scalar factor (st.getX r.xId))
  (ax.1, ⟨r.cId, ax.2⟩)

/-- The `shift_spline` over the store: allocates the shifted knot array
(`Array.map` returns a fresh array) but reuses the input's coefficient array
(`new BPoly(spline.c, shiftedKnots)`). -/
def shift_spline_heap (st : Store) (r : Ref) (offset : NumJS) : Store × Ref :=
  let x := st.getX r.xId
  let offset' := offset.maxWith (-x.headI)
  let ax := st.allocX (x.map (fun pos => pos + offset'))
  (ax.1, ⟨r.cId, ax.2⟩)

/-- The `scale_spline` over the store: allocates the scaled coefficient array
(flat copy, scale, reshape) but reuses the input's knot array
(`new BPoly(scaledCoeffs, spline.x)`). -/
def scale_spline_heap (st : Store) (r : Ref) (factor : ℚ) : Store × Ref :=
  let c := st.getC r.cId
  let shape := array_shape2 c
  let ac := st.allocC (array_reshape2 shape.1 shape.2 (multiply_scalar factor c.flatten))
  (ac.1, ⟨ac.2, r.xId⟩)

/-- Modelled from the spec: `BPoly.restrict_to_bbox(box)` of the newer
`spline.js` is not among the given sources.  §4.1: "clamps coefficient
ordinates (and/or knot range) to lie within `box`"; the call site in
`spline_changed` discards the return value, so the clamp acts in place on the
object's coefficient array (only the ordinate clamp is modelled — it is the
part the claims exercise). -/
def restrict_to_bbox_heap (st : Store) (r : Ref) (box : BBox) : Store :=
  st.setC r.cId
    ((st.getC r.cId).map (fun row => row.map (fun v => clip v box.ll.2 box.ur.2)))

/-! Section: Edit history

Modelled from the spec: `history.js` is not among the given sources.  §3
"EditHistory" / §4.3: an ordered sequence of snapshots plus a cursor;
`capture` appends after truncating the redo tail and sets the cursor to the
new last index; `retrieve` returns the snapshot at the cursor. -/

/-- Modelled from the spec: linear undo/redo history of `BPoly` object
references. -/
structure History where
  snapshots : List Ref
  cursor : Nat
  deriving DecidableEq, Repr

namespace History

/-- Modelled from the spec: number of stored snapshots (`get length()`). -/
def length (h : History) : Nat := h.snapshots.length

/-- Modelled from the spec: `capture(snapshot)` truncates the redo tail after
the cursor, appends, and points the cursor at the new last snapshot. -/
def capture (h : History) (snapshot : Ref) : History :=
  let kept := h.snapshots.take (h.cursor + 1)
  ⟨kept ++ [snapshot], kept.length⟩

/-- Modelled from the spec: `retrieve()` returns the snapshot at the cursor. -/
def retrieve (h : History) : Ref := h.snapshots.getD h.cursor ⟨0, 0⟩

end History

/-- The `Editor.spline_changed(workingCopy)` over the store (the editor calls
`workingCopy.restrict_to_bbox(this.limits())` and then
`this.history.capture(workingCopy)`; `draw_current_spline` is rendering
only).  `boundaries` stands for `this.limits()`. -/
def spline_changed (st : Store) (h : History) (workingCopy : Ref) (boundaries : BBox) :
    Store × History :=
  let st := restrict_to_bbox_heap st workingCopy boundaries
  (st, h.capture workingCopy)

/-- The `hiking` ("Slow down motion") toolbar handler over the store: guard on
a nonempty history, `spline_changing()` (stops playback — no store or history
effect), `stretch_spline(this.history.retrieve(), factor)`,
`spline_changed(newSpline)`.  The handler uses `factor = 2.0`; the factor is
kept as a parameter since the `directions_run` handler is identical with
`0.5`. -/
def stretch_toolbar_handler (st : Store) (h : History) (factor : ℚ)
    (boundaries : BBox) : Store × History :=
  if h.length = 0 then
    (st, h)
  else
    let sr := stretch_spline_heap st h.retrieve factor
    spline_changed sr.1 h sr.2 boundaries

/-! Section: Drag pan/zoom controller (from `setup_svg_drag_navigation`)

The update callback computes `factor = Math.exp(-0.01 * delta[1])`, so this
component is modelled over the reals. -/

/-- Horizontal viewport extent (the drag callbacks only read and write
`viewport.left` and `viewport.right`). -/
structure ViewR where
  left : ℝ
  right : ℝ

/-- The `width` of the horizontal extent. -/
noncomputable def ViewR.width (v : ViewR) : ℝ := v.right - v.left

/-- The `clip` from math.js over the reals. -/
noncomputable def clipR (value lower upper : ℝ) : ℝ := max lower (min upper value)

/-- Begin callback: `alpha = clip((pt[0] - orig.left) / orig.width, 0, 1);
mid = orig.left + alpha * orig.width` — the focal point in curve space,
clamped to the viewport's horizontal extent.  `ptx` is the data-space x
coordinate of the pointer (`this.mouse_coordinates(evt)[0]`). -/
noncomputable def drag_begin_mid (orig : ViewR) (ptx : ℝ) : ℝ :=
  let alpha := clipR ((ptx - orig.left) / orig.width) 0 1
  orig.left + alpha * orig.width

/-- The affine edge map of the update callback: both viewport edges are set to
`factor * (origEdge - mid + shift) + mid`. -/
noncomputable def drag_edge_map (mid shift factor edge : ℝ) : ℝ :=
  factor * (edge - mid + shift) + mid

/-- Update callback: `delta = subtract_arrays(end, start)`;
`shift = -delta[0] / this.canvas.width * orig.width`;
`factor = Math.exp(-0.01 * delta[1])`; both edges are mapped through
`drag_edge_map`. -/
noncomputable def drag_update (orig : ViewR) (mid canvasWidth : ℝ)
    (startPt endPt : ℝ × ℝ) : ViewR :=
  let delta := (endPt.1 - startPt.1, endPt.2 - startPt.2)
  let shift := -delta.1 / canvasWidth * orig.width
  let factor := Real.exp (-0.01 * delta.2)
  { left := drag_edge_map mid shift factor orig.left
    right := drag_edge_map mid shift factor orig.right }

/-! Section: Helper lemmas -/

theorem getD_append_left {α : Type} (l l' : List α) (i : Nat) (d : α)
    (h : i < l.length) : (l ++ l').getD i d = l.getD i d := by
  simp [List.getD_eq_getElem?_getD, List.getElem?_append, h]

theorem getD_append_length {α : Type} (l : List α) (v d : α) :
    (l ++ [v]).getD l.length d = v := by
  simp [List.getD_eq_getElem?_getD, List.getElem?_concat_length]

theorem getD_set_ne {α : Type} (l : List α) (i j : Nat) (v d : α) (h : i ≠ j) :
    (l.set i v).getD j d = l.getD j d := by
  simp [List.getD_eq_getElem?_getD, List.getElem?_set_ne h]

theorem getD_map_lt (f : ℚ → ℚ) (x : List ℚ) (j : Nat) (d : ℚ)
    (h : j < x.length) : (x.map f).getD j d = f (x.getD j d) := by
  simp [List.getD_eq_getElem?_getD, List.getElem?_map, List.getElem?_eq_getElem h]

theorem headI_map (f : ℚ → ℚ) (x : List ℚ) (h : x ≠ []) :
    (x.map f).headI = f x.headI := by
  cases x with
  | nil => exact absurd rfl h
  | cons a l => simp

theorem getLastD_map (f : ℚ → ℚ) (x : List ℚ) (h : x ≠ []) (d₁ d₂ : ℚ) :
    (x.map f).getLastD d₁ = f (x.getLastD d₂) := by
  induction x generalizing d₁ d₂ with
  | nil => exact absurd rfl h
  | cons a l ih =>
    cases l with
    | nil => simp
    | cons b r =>
      show ((b :: r).map f).getLastD (f a) = f ((b :: r).getLastD a)
      exact ih (by simp) (f a) a

theorem foldl_min_le_init (r : List ℚ) (a : ℚ) : r.foldl min a ≤ a := by
  induction r generalizing a with
  | nil => exact le_refl a
  | cons b l ih => exact le_trans (ih (min a b)) (min_le_left a b)

theorem foldl_min_le_mem (r : List ℚ) (a : ℚ) : ∀ v ∈ r, r.foldl min a ≤ v := by
  induction r generalizing a with
  | nil => intro v hv; cases hv
  | cons b l ih =>
    intro v hv
    rcases List.mem_cons.1 hv with h | h
    · subst h
      exact le_trans (foldl_min_le_init l (min a v)) (min_le_right a v)
    · exact ih (min a b) v h

theorem foldl_min_mem (r : List ℚ) (a : ℚ) :
    r.foldl min a = a ∨ r.foldl min a ∈ r := by
  induction r generalizing a with
  | nil => exact Or.inl rfl
  | cons b l ih =>
    rcases ih (min a b) with h | h
    · rcases min_choice a b with hm | hm
      · exact Or.inl (by rw [List.foldl_cons, h, hm])
      · exact Or.inr (by rw [List.foldl_cons, h, hm]; exact List.mem_cons_self b l)
    · exact Or.inr (List.mem_cons_of_mem b h)

theorem foldl_max_init_le (r : List ℚ) (a : ℚ) : a ≤ r.foldl max a := by
  induction r generalizing a with
  | nil => exact le_refl a
  | cons b l ih => exact le_trans (le_max_left a b) (ih (max a b))

theorem foldl_max_mem_le (r : List ℚ) (a : ℚ) : ∀ v ∈ r, v ≤ r.foldl max a := by
  induction r generalizing a with
  | nil => intro v hv; cases hv
  | cons b l ih =>
    intro v hv
    rcases List.mem_cons.1 hv with h | h
    · subst h
      exact le_trans (le_max_right a v) (foldl_max_init_le l (max a v))
    · exact ih (max a b) v h

theorem foldl_max_mem (r : List ℚ) (a : ℚ) :
    r.foldl max a = a ∨ r.foldl max a ∈ r := by
  induction r generalizing a with
  | nil => exact Or.inl rfl
  | cons b l ih =>
    rcases ih (max a b) with h | h
    · rcases max_choice a b with hm | hm
      · exact Or.inl (by rw [List.foldl_cons, h, hm])
      · exact Or.inr (by rw [List.foldl_cons, h, hm]; exact List.mem_cons_self b l)
    · exact Or.inr (List.mem_cons_of_mem b h)

theorem array_min_le (l : List ℚ) : ∀ v ∈ l, array_min l ≤ v := by
  cases l with
  | nil => intro v hv; cases hv
  | cons a r =>
    intro v hv
    rcases List.mem_cons.1 hv with h | h
    · subst h; exact foldl_min_le_init r v
    · exact foldl_min_le_mem r a v h

theorem array_min_mem (l : List ℚ) (h : l ≠ []) : array_min l ∈ l := by
  cases l with
  | nil => exact absurd rfl h
  | cons a r =>
    rcases foldl_min_mem r a with h' | h'
    · rw [array_min, h']; exact List.mem_cons_self a r
    · exact List.mem_cons_of_mem a h'

theorem array_max_le (l : List ℚ) : ∀ v ∈ l, v ≤ array_max l := by
  cases l with
  | nil => intro v hv; cases hv
  | cons a r =>
    intro v hv
    rcases List.mem_cons.1 hv with h | h
    · subst h; exact foldl_max_init_le r v
    · exact foldl_max_mem_le r a v h

theorem array_max_mem (l : List ℚ) (h : l ≠ []) : array_max l ∈ l := by
  cases l with
  | nil => exact absurd rfl h
  | cons a r =>
    rcases foldl_max_mem r a with h' | h'
    · rw [array_max, h']; exact List.mem_cons_self a r
    · exact List.mem_cons_of_mem a h'

theorem foldl_min_map_mul (k : ℚ) (hk : 0 ≤ k) (r : List ℚ) (a : ℚ) :
    (r.map (fun v => k * v)).foldl min (k * a) = k * r.foldl min a := by
  induction r generalizing a with
  | nil => rfl
  | cons b l ih =>
    show (l.map (fun v => k * v)).foldl min (min (k * a) (k * b)) = _
    rw [← mul_min_of_nonneg a b hk, ih (min a b)]
    rfl

theorem foldl_max_map_mul (k : ℚ) (hk : 0 ≤ k) (r : List ℚ) (a : ℚ) :
    (r.map (fun v => k * v)).foldl max (k * a) = k * r.foldl max a := by
  induction r generalizing a with
  | nil => rfl
  | cons b l ih =>
    show (l.map (fun v => k * v)).foldl max (max (k * a) (k * b)) = _
    rw [← mul_max_of_nonneg a b hk, ih (max a b)]
    rfl

theorem array_min_map_mul (k : ℚ) (hk : 0 ≤ k) (l : List ℚ) (h : l ≠ []) :
    array_min (l.map (fun v => k * v)) = k * array_min l := by
  cases l with
  | nil => exact absurd rfl h
  | cons a r => exact foldl_min_map_mul k hk r a

theorem array_max_map_mul (k : ℚ) (hk : 0 ≤ k) (l : List ℚ) (h : l ≠ []) :
    array_max (l.map (fun v => k * v)) = k * array_max l := by
  cases l with
  | nil => exact absurd rfl h
  | cons a r => exact foldl_max_map_mul k hk r a

/-- Reshaping the scaled flat copy of a rectangular 2D array with its own
shape recovers elementwise mapping over the nested array. -/
theorem array_reshape2_flatten_map (f : ℚ → ℚ) (c : List (List ℚ)) (cols : Nat)
    (h : ∀ row ∈ c, row.length = cols) :
    array_reshape2 c.length cols (c.flatten.map f) = c.map (List.map f) := by
  induction c with
  | nil => rfl
  | cons row rest ih =>
    have hrow : (row.map f).length = cols := by
      rw [List.length_map]; exact h row (List.mem_cons_self row rest)
    show ((row ++ rest.flatten).map f).take cols ::
        array_reshape2 rest.length cols (((row ++ rest.flatten).map f).drop cols) = _
    rw [List.map_append, List.take_left' hrow, List.drop_left' hrow,
      ih (fun r hr => h r (List.mem_cons_of_mem row hr))]
    rfl

/-- A well-formed spline has a nonempty flattened coefficient array. -/
theorem WellFormed.flatten_ne_nil {s : BPoly} (hs : WellFormed s) :
    s.c.flatten ≠ [] := by
  obtain ⟨hx, _, hc, hrow⟩ := hs
  cases hcc : s.c with
  | nil => exact absurd hcc hc
  | cons row rest =>
    have hr : row.length = s.x.length - 1 := hrow row (hcc ▸ List.mem_cons_self row rest)
    have : 1 ≤ s.x.length - 1 := by omega
    have hrn : row ≠ [] := by
      intro hnil
      rw [hnil] at hr
      simp at hr
      omega
    cases hrr : row with
    | nil => exact absurd hrr hrn
    | cons v vs => simp [hcc, hrr]

/-- Well-formedness reduced to concrete checks, for witness instantiation. -/
theorem WellFormed.of_checks {s : BPoly} (h1 : 2 ≤ s.x.length)
    (h2 : s.x.Chain' (· < ·)) (h3 : s.c ≠ [])
    (h4 : ∀ row ∈ s.c, row.length = s.x.length - 1) : WellFormed s :=
  ⟨h1, h2, h3, h4⟩

/-- A well-formed spline has a nonempty knot array. -/
theorem WellFormed.x_ne_nil {s : BPoly} (hs : WellFormed s) : s.x ≠ [] := by
  obtain ⟨hx, _, _, _⟩ := hs
  intro hnil
  rw [hnil] at hx
  simp at hx

/-- In a well-formed spline every coefficient row has the length of the first
row (all rows have length `n_segments`). -/
theorem WellFormed.rows_headI_length {s : BPoly} (hs : WellFormed s) :
    ∀ row ∈ s.c, row.length = s.c.headI.length := by
  obtain ⟨_, _, hc, hrow⟩ := hs
  intro row hr
  have hh : s.c.headI ∈ s.c := by
    cases hcc : s.c with
    | nil => exact absurd hcc hc
    | cons a r => simp [hcc]
  rw [hrow row hr, hrow _ hh]

/-- For a well-formed spline, `scale_spline`'s flatten / scale / reshape
round trip is elementwise multiplication on the nested coefficient array. -/
theorem scale_spline_c_eq (s : BPoly) (k : ℚ) (hs : WellFormed s) :
    (scale_spline s k).c = s.c.map (List.map (fun v => k * v)) := by
  show array_reshape2 (array_shape2 s.c).1 (array_shape2 s.c).2
      (multiply_scalar k s.c.flatten) = _
  unfold array_shape2 multiply_scalar
  exact array_reshape2_flatten_map _ s.c _ hs.rows_headI_length

/-! Section: Claim theorems -/

/-- C3: for every well-formed spline `s` and factor `k > 0`,
`stretch_spline(s, k)` has duration `k * s.duration` and coefficient
ordinates identical to those of `s`, and `scale_spline(s, k)` has
`min = k * s.min`, `max = k * s.max` and the knot sequence of `s`
(knot timings unchanged). -/
theorem stretch_scale_algebraic (s : BPoly) (k : ℚ) (hs : WellFormed s)
    (hk : 0 < k) :
    (stretch_spline s k).duration = k * s.duration ∧
    (stretch_spline s k).c = s.c ∧
    (scale_spline s k).min = k * s.min ∧
    (scale_spline s k).max = k * s.max ∧
    (scale_spline s k).x = s.x := by
  have hxne := hs.x_ne_nil
  have hfne := hs.flatten_ne_nil
  have hc := scale_spline_c_eq s k hs
  have hflat : (scale_spline s k).c.flatten = s.c.flatten.map (fun v => k * v) := by
    rw [hc]; simp [List.map_flatten]
  refine ⟨?_, rfl, ?_, ?_, rfl⟩
  · show (stretch_spline s k).endT - (stretch_spline s k).start = k * (s.endT - s.start)
    show (multiply_scalar k s.x).getLastD 0 - (multiply_scalar k s.x).headI = _
    unfold multiply_scalar
    rw [getLastD_map _ _ hxne 0 0, headI_map _ _ hxne]
    unfold BPoly.endT BPoly.start
    ring
  · show array_min (scale_spline s k).c.flatten = k * array_min s.c.flatten
    rw [hflat, array_min_map_mul k hk.le _ hfne]
  · show array_max (scale_spline s k).c.flatten = k * array_max s.c.flatten
    rw [hflat, array_max_map_mul k hk.le _ hfne]

/-- Witness for C3 at the well-formed quadratic spline with coefficients
`[[1, 2], [3, 4]]`, knots `[0, 1, 2]` and factor `2`. -/
theorem stretch_scale_algebraic_witness :
    WellFormed ⟨[[1, 2], [3, 4]], [0, 1, 2]⟩ ∧ (0 : ℚ) < 2 ∧
    ((stretch_spline ⟨[[1, 2], [3, 4]], [0, 1, 2]⟩ 2).duration
        = 2 * (BPoly.mk [[1, 2], [3, 4]] [0, 1, 2]).duration ∧
      (stretch_spline ⟨[[1, 2], [3, 4]], [0, 1, 2]⟩ 2).c
        = (BPoly.mk [[1, 2], [3, 4]] [0, 1, 2]).c ∧
      (scale_spline ⟨[[1, 2], [3, 4]], [0, 1, 2]⟩ 2).min
        = 2 * (BPoly.mk [[1, 2], [3, 4]] [0, 1, 2]).min ∧
      (scale_spline ⟨[[1, 2], [3, 4]], [0, 1, 2]⟩ 2).max
        = 2 * (BPoly.mk [[1, 2], [3, 4]] [0, 1, 2]).max ∧
      (scale_spline ⟨[[1, 2], [3, 4]], [0, 1, 2]⟩ 2).x
        = (BPoly.mk [[1, 2], [3, 4]] [0, 1, 2]).x) :=
  ⟨WellFormed.of_checks (by norm_num) (by norm_num [List.chain'_cons]) (by simp) (by intro row hr; fin_cases hr <;> rfl), by norm_num,
    stretch_scale_algebraic ⟨[[1, 2], [3, 4]], [0, 1, 2]⟩ 2 (WellFormed.of_checks (by norm_num) (by norm_num [List.chain'_cons]) (by simp) (by intro row hr; fin_cases hr <;> rfl)) (by norm_num)⟩

/-- C4: for every spline whose first knot is nonnegative and every offset
(including `-Infinity`), `shift_spline` adds the clamped offset
`max(offset, -start)` uniformly: the resulting start is
`max(start + offset, 0)` (so never below `0` and never below
`start + offset`), inter-knot spacings are unchanged, and the coefficient
array is unchanged. -/
theorem shift_spline_clamped (s : BPoly) (offset : NumJS) (hx : s.x ≠ [])
    (h0 : 0 ≤ s.start) :
    (offset = NumJS.negInf → (shift_spline s offset).start = 0) ∧
    (∀ q, offset = NumJS.val q →
      (shift_spline s offset).start = Max.max (s.start + q) 0) ∧
    0 ≤ (shift_spline s offset).start ∧
    (∀ q, offset = NumJS.val q → s.start + q ≤ (shift_spline s offset).start) ∧
    (∀ i, i + 1 < s.x.length →
      (shift_spline s offset).x.getD (i + 1) 0 - (shift_spline s offset).x.getD i 0
        = s.x.getD (i + 1) 0 - s.x.getD i 0) ∧
    (shift_spline s offset).c = s.c := by
  have hstart : (shift_spline s offset).start
      = s.start + offset.maxWith (-s.start) := by
    show (s.x.map fun pos => pos + offset.maxWith (-s.x.headI)).headI = _
    rw [headI_map _ _ hx]
    rfl
  have hmax : ∀ q, (NumJS.val q).maxWith (-s.start) = Max.max q (-s.start) :=
    fun q => rfl
  refine ⟨?_, ?_, ?_, ?_, ?_, rfl⟩
  · intro h; subst h
    rw [hstart]
    show s.start + (-s.start) = 0
    ring
  · intro q h; subst h
    rw [hstart, hmax, add_max]
    congr 1
    ring
  · cases offset with
    | negInf =>
      rw [hstart]
      show (0 : ℚ) ≤ s.start + (-s.start)
      simp
    | val q =>
      rw [hstart, hmax, add_max]
      simp only [add_neg_cancel]
      exact le_max_right _ _
  · intro q h; subst h
    rw [hstart, hmax, add_max, add_neg_cancel]
    exact le_max_left _ _
  · intro i hi
    have hi' : i < s.x.length := by omega
    show (s.x.map fun pos => pos + offset.maxWith (-s.x.headI)).getD (i + 1) 0
        - (s.x.map fun pos => pos + offset.maxWith (-s.x.headI)).getD i 0 = _
    rw [getD_map_lt _ _ _ _ hi, getD_map_lt _ _ _ _ hi']
    ring

/-- Witness for C4 at the spline with knots `[1, 2]`, coefficient `[[5]]` and
offset `-Infinity`. -/
theorem shift_spline_clamped_witness :
    (BPoly.mk [[5]] [1, 2]).x ≠ [] ∧ (0 : ℚ) ≤ (BPoly.mk [[5]] [1, 2]).start ∧
    ((NumJS.negInf = NumJS.negInf →
        (shift_spline ⟨[[5]], [1, 2]⟩ NumJS.negInf).start = 0) ∧
      (∀ q, NumJS.negInf = NumJS.val q →
        (shift_spline ⟨[[5]], [1, 2]⟩ NumJS.negInf).start
          = Max.max ((BPoly.mk [[5]] [1, 2]).start + q) 0) ∧
      0 ≤ (shift_spline ⟨[[5]], [1, 2]⟩ NumJS.negInf).start ∧
      (∀ q, NumJS.negInf = NumJS.val q →
        (BPoly.mk [[5]] [1, 2]).start + q
          ≤ (shift_spline ⟨[[5]], [1, 2]⟩ NumJS.negInf).start) ∧
      (∀ i, i + 1 < (BPoly.mk [[5]] [1, 2]).x.length →
        (shift_spline ⟨[[5]], [1, 2]⟩ NumJS.negInf).x.getD (i + 1) 0
            - (shift_spline ⟨[[5]], [1, 2]⟩ NumJS.negInf).x.getD i 0
          = (BPoly.mk [[5]] [1, 2]).x.getD (i + 1) 0
            - (BPoly.mk [[5]] [1, 2]).x.getD i 0) ∧
      (shift_spline ⟨[[5]], [1, 2]⟩ NumJS.negInf).c = (BPoly.mk [[5]] [1, 2]).c) :=
  ⟨by decide, by decide,
    shift_spline_clamped ⟨[[5]], [1, 2]⟩ NumJS.negInf (by decide) (by decide)⟩

/-- C8: for every well-formed spline, `bbox()` is the box with lower-left
corner `[start, min]` and upper-right corner `[end, max]`, where `start`/`end`
are the first/last knot and `min`/`max` are attained extrema over the
flattened coefficient values (the coefficient-extrema approximation). -/
theorem bbox_characterization (s : BPoly) (hs : WellFormed s) :
    s.bbox = ⟨(s.x.headI, s.min), (s.x.getLastD 0, s.max)⟩ ∧
    s.bbox.ll.2 ∈ s.c.flatten ∧ (∀ v ∈ s.c.flatten, s.bbox.ll.2 ≤ v) ∧
    s.bbox.ur.2 ∈ s.c.flatten ∧ (∀ v ∈ s.c.flatten, v ≤ s.bbox.ur.2) :=
  ⟨rfl, array_min_mem _ hs.flatten_ne_nil, array_min_le _,
    array_max_mem _ hs.flatten_ne_nil, array_max_le _⟩

/-- Witness for C8 at the well-formed spline with coefficients
`[[3, 1], [2, 4]]` and knots `[0, 1, 2]`. -/
theorem bbox_characterization_witness :
    WellFormed ⟨[[3, 1], [2, 4]], [0, 1, 2]⟩ ∧
    ((BPoly.mk [[3, 1], [2, 4]] [0, 1, 2]).bbox
        = ⟨((BPoly.mk [[3, 1], [2, 4]] [0, 1, 2]).x.headI,
            (BPoly.mk [[3, 1], [2, 4]] [0, 1, 2]).min),
           ((BPoly.mk [[3, 1], [2, 4]] [0, 1, 2]).x.getLastD 0,
            (BPoly.mk [[3, 1], [2, 4]] [0, 1, 2]).max)⟩ ∧
      (BPoly.mk [[3, 1], [2, 4]] [0, 1, 2]).bbox.ll.2
        ∈ (BPoly.mk [[3, 1], [2, 4]] [0, 1, 2]).c.flatten ∧
      (∀ v ∈ (BPoly.mk [[3, 1], [2, 4]] [0, 1, 2]).c.flatten,
        (BPoly.mk [[3, 1], [2, 4]] [0, 1, 2]).bbox.ll.2 ≤ v) ∧
      (BPoly.mk [[3, 1], [2, 4]] [0, 1, 2]).bbox.ur.2
        ∈ (BPoly.mk [[3, 1], [2, 4]] [0, 1, 2]).c.flatten ∧
      (∀ v ∈ (BPoly.mk [[3, 1], [2, 4]] [0, 1, 2]).c.flatten,
        v ≤ (BPoly.mk [[3, 1], [2, 4]] [0, 1, 2]).bbox.ur.2)) :=
  ⟨WellFormed.of_checks (by norm_num) (by norm_num [List.chain'_cons]) (by simp) (by intro row hr; fin_cases hr <;> rfl), bbox_characterization ⟨[[3, 1], [2, 4]], [0, 1, 2]⟩ (WellFormed.of_checks (by norm_num) (by norm_num [List.chain'_cons]) (by simp) (by intro row hr; fin_cases hr <;> rfl))⟩

/-- A diagonal affine matrix (`b = c = 0`) with nonzero diagonal composes with
its `inverseM` to the identity, in both orders. -/
theorem applyPt_inverseM_round_trip (m : DOMMat) (hb : m.b = 0) (hc : m.c = 0)
    (ha : m.a ≠ 0) (hd : m.d ≠ 0) (p : ℚ × ℚ) :
    m.inverseM.applyPt (m.applyPt p) = p ∧ m.applyPt (m.inverseM.applyPt p) = p := by
  obtain ⟨a, b, c, d, e, f⟩ := m
  simp only at hb hc ha hd
  subst hb
  subst hc
  constructor <;>
    · apply Prod.ext <;>
        · simp only [DOMMat.applyPt, DOMMat.inverseM]
          field_simp
          ring

/-- C5: whenever `update_trafo` runs with a non-degenerate viewport (both
scale factors nonzero — finiteness is automatic in exact arithmetic), the
stored forward and inverse transforms are mutually inverse: mapping any point
through `transform_point` and then through the inverse used by
`mouse_coordinates` returns the point, and conversely. -/
theorem update_trafo_round_trip (width height : ℚ) (vp : BBox)
    (old : DOMMat × DOMMat)
    (hsx : (width - 2 * MARGIN) / vp.size.1 ≠ 0)
    (hsy : (height - 2 * MARGIN) / vp.size.2 ≠ 0) :
    ∀ p : ℚ × ℚ,
      mouse_coordinates (update_trafo width height vp old).2
          (transform_point (update_trafo width height vp old).1 p) = p ∧
      transform_point (update_trafo width height vp old).1
          (mouse_coordinates (update_trafo width height vp old).2 p) = p := by
  intro p
  have hguard : ¬((width - 2 * MARGIN) / vp.size.1 = 0 ∨
      (height - 2 * MARGIN) / vp.size.2 = 0) := by
    push_neg
    exact ⟨hsx, hsy⟩
  have hres : update_trafo width height vp old =
      (⟨(width - 2 * MARGIN) / vp.size.1, 0, 0,
          -((height - 2 * MARGIN) / vp.size.2),
          -((width - 2 * MARGIN) / vp.size.1) * vp.ll.1 + MARGIN,
          (height - 2 * MARGIN) / vp.size.2 * (vp.ll.2 + vp.height) + MARGIN⟩,
        DOMMat.inverseM
          ⟨(width - 2 * MARGIN) / vp.size.1, 0, 0,
            -((height - 2 * MARGIN) / vp.size.2),
            -((width - 2 * MARGIN) / vp.size.1) * vp.ll.1 + MARGIN,
            (height - 2 * MARGIN) / vp.size.2 * (vp.ll.2 + vp.height) + MARGIN⟩) := by
    unfold update_trafo
    rw [if_neg hguard]
  rw [hres]
  exact applyPt_inverseM_round_trip _ rfl rfl hsx (by simpa using hsy) p

/-- Witness for C5 at viewport `[0,0] x [2,1]`, display `300 x 200`,
point `(1/3, 1/7)`. -/
theorem update_trafo_round_trip_witness :
    ((300 : ℚ) - 2 * MARGIN) / (BBox.mk (0, 0) (2, 1)).size.1 ≠ 0 ∧
    ((200 : ℚ) - 2 * MARGIN) / (BBox.mk (0, 0) (2, 1)).size.2 ≠ 0 ∧
    (mouse_coordinates
        (update_trafo 300 200 ⟨(0, 0), (2, 1)⟩ (⟨1, 0, 0, 1, 0, 0⟩, ⟨1, 0, 0, 1, 0, 0⟩)).2
        (transform_point
          (update_trafo 300 200 ⟨(0, 0), (2, 1)⟩ (⟨1, 0, 0, 1, 0, 0⟩, ⟨1, 0, 0, 1, 0, 0⟩)).1
          (1 / 3, 1 / 7)) = (1 / 3, 1 / 7) ∧
      transform_point
        (update_trafo 300 200 ⟨(0, 0), (2, 1)⟩ (⟨1, 0, 0, 1, 0, 0⟩, ⟨1, 0, 0, 1, 0, 0⟩)).1
        (mouse_coordinates
          (update_trafo 300 200 ⟨(0, 0), (2, 1)⟩ (⟨1, 0, 0, 1, 0, 0⟩, ⟨1, 0, 0, 1, 0, 0⟩)).2
          (1 / 3, 1 / 7)) = (1 / 3, 1 / 7)) :=
  ⟨by norm_num [MARGIN, BBox.size, BBox.width, BBox.height],
    by norm_num [MARGIN, BBox.size, BBox.width, BBox.height],
    update_trafo_round_trip 300 200 ⟨(0, 0), (2, 1)⟩ (⟨1, 0, 0, 1, 0, 0⟩, ⟨1, 0, 0, 1, 0, 0⟩)
      (by norm_num [MARGIN, BBox.size, BBox.width, BBox.height])
      (by norm_num [MARGIN, BBox.size, BBox.width, BBox.height]) (1 / 3, 1 / 7)⟩

/-- C6: `zoom_bbox_in_place(bbox, f)` with `f > 0` keeps the horizontal
midpoint fixed, divides the width by `f`, and leaves the vertical bounds
unchanged; consequently, for a non-degenerate viewport, the forward pixel
position of the midpoint after `zoom_bbox_in_place` followed by
`update_trafo` equals its position before the zoom. -/
theorem zoom_in_place_focal_invariant (b : BBox) (f W H : ℚ)
    (old old' : DOMMat × DOMMat) (hf : 0 < f)
    (hW : W - 2 * MARGIN ≠ 0) (hH : H - 2 * MARGIN ≠ 0)
    (hw : b.width ≠ 0) (hh : b.height ≠ 0) :
    ((zoom_bbox_in_place b f).left + (zoom_bbox_in_place b f).right) / 2
        = (b.left + b.right) / 2 ∧
    (zoom_bbox_in_place b f).width = b.width / f ∧
    (zoom_bbox_in_place b f).ll.2 = b.ll.2 ∧
    (zoom_bbox_in_place b f).ur.2 = b.ur.2 ∧
    ∀ y, transform_point (update_trafo W H (zoom_bbox_in_place b f) old').1
            ((b.left + b.right) / 2, y)
        = transform_point (update_trafo W H b old).1 ((b.left + b.right) / 2, y) := by
  have hf' : f ≠ 0 := ne_of_gt hf
  have hzw : (zoom_bbox_in_place b f).width = b.width / f := by
    unfold zoom_bbox_in_place BBox.width BBox.left BBox.right at *
    field_simp
    ring
  have hzll : (zoom_bbox_in_place b f).ll.2 = b.ll.2 := rfl
  have hzur : (zoom_bbox_in_place b f).ur.2 = b.ur.2 := rfl
  have hzh : (zoom_bbox_in_place b f).height = b.height := rfl
  refine ⟨?_, hzw, hzll, hzur, ?_⟩
  · unfold zoom_bbox_in_place BBox.left BBox.right at *
    field_simp
    ring
  · intro y
    have hguard : ¬((W - 2 * MARGIN) / b.size.1 = 0 ∨ (H - 2 * MARGIN) / b.size.2 = 0) := by
      push_neg
      constructor <;> rw [div_ne_zero_iff]
      · exact ⟨hW, hw⟩
      · exact ⟨hH, hh⟩
    have hguard' : ¬((W - 2 * MARGIN) / (zoom_bbox_in_place b f).size.1 = 0 ∨
        (H - 2 * MARGIN) / (zoom_bbox_in_place b f).size.2 = 0) := by
      push_neg
      constructor <;> rw [div_ne_zero_iff]
      · refine ⟨hW, ?_⟩
        show (zoom_bbox_in_place b f).width ≠ 0
        rw [hzw]
        exact div_ne_zero hw hf'
      · refine ⟨hH, ?_⟩
        show (zoom_bbox_in_place b f).height ≠ 0
        rw [hzh]
        exact hh
    unfold update_trafo
    rw [if_neg hguard, if_neg hguard']
    show ((W - 2 * MARGIN) / (zoom_bbox_in_place b f).size.1 * ((b.left + b.right) / 2)
        + 0 * y + (-((W - 2 * MARGIN) / (zoom_bbox_in_place b f).size.1)
            * (zoom_bbox_in_place b f).ll.1 + MARGIN),
      _) = _
    have hzsz : (zoom_bbox_in_place b f).size.1 = b.width / f := hzw
    have hzl : (zoom_bbox_in_place b f).ll.1
        = 1 / f * (b.left - (1 / 2) * (b.left + b.right)) + (1 / 2) * (b.left + b.right) :=
      rfl
    apply Prod.ext
    · show (W - 2 * MARGIN) / (zoom_bbox_in_place b f).size.1 * ((b.left + b.right) / 2)
          + 0 * y + (-((W - 2 * MARGIN) / (zoom_bbox_in_place b f).size.1)
              * (zoom_bbox_in_place b f).ll.1 + MARGIN)
        = (W - 2 * MARGIN) / b.size.1 * ((b.left + b.right) / 2)
          + 0 * y + (-((W - 2 * MARGIN) / b.size.1) * b.ll.1 + MARGIN)
      rw [hzsz, hzl]
      show _ = (W - 2 * MARGIN) / b.width * ((b.left + b.right) / 2)
          + 0 * y + (-((W - 2 * MARGIN) / b.width) * b.left + MARGIN)
      have hwf : b.width / f ≠ 0 := div_ne_zero hw hf'
      field_simp
      unfold BBox.width BBox.left BBox.right at *
      ring
    · show 0 * ((b.left + b.right) / 2)
          + -((H - 2 * MARGIN) / (zoom_bbox_in_place b f).size.2) * y
          + ((H - 2 * MARGIN) / (zoom_bbox_in_place b f).size.2
              * ((zoom_bbox_in_place b f).ll.2 + (zoom_bbox_in_place b f).height) + MARGIN)
        = 0 * ((b.left + b.right) / 2) + -((H - 2 * MARGIN) / b.size.2) * y
          + ((H - 2 * MARGIN) / b.size.2 * (b.ll.2 + b.height) + MARGIN)
      have hsz2 : (zoom_bbox_in_place b f).size.2 = b.size.2 := by
        show (zoom_bbox_in_place b f).height = b.height
        exact hzh
      rw [hsz2, hzll, hzh]

/-- Witness for C6 at box `[0,1] x [4,3]`, factor `2`, display `300 x 200`,
evaluated at `y = 5`. -/
theorem zoom_in_place_focal_invariant_witness :
    (0 : ℚ) < 2 ∧ (300 : ℚ) - 2 * MARGIN ≠ 0 ∧ (200 : ℚ) - 2 * MARGIN ≠ 0 ∧
    (BBox.mk (0, 1) (4, 3)).width ≠ 0 ∧ (BBox.mk (0, 1) (4, 3)).height ≠ 0 ∧
    transform_point
        (update_trafo 300 200 (zoom_bbox_in_place ⟨(0, 1), (4, 3)⟩ 2)
          (⟨1, 0, 0, 1, 0, 0⟩, ⟨1, 0, 0, 1, 0, 0⟩)).1
        (((BBox.mk (0, 1) (4, 3)).left + (BBox.mk (0, 1) (4, 3)).right) / 2, 5)
      = transform_point
          (update_trafo 300 200 ⟨(0, 1), (4, 3)⟩ (⟨1, 0, 0, 1, 0, 0⟩, ⟨1, 0, 0, 1, 0, 0⟩)).1
          (((BBox.mk (0, 1) (4, 3)).left + (BBox.mk (0, 1) (4, 3)).right) / 2, 5) :=
  ⟨by norm_num, by norm_num [MARGIN], by norm_num [MARGIN],
    by norm_num [BBox.width], by norm_num [BBox.height],
    (zoom_in_place_focal_invariant ⟨(0, 1), (4, 3)⟩ 2 300 200
      (⟨1, 0, 0, 1, 0, 0⟩, ⟨1, 0, 0, 1, 0, 0⟩) (⟨1, 0, 0, 1, 0, 0⟩, ⟨1, 0, 0, 1, 0, 0⟩)
      (by norm_num) (by norm_num [MARGIN]) (by norm_num [MARGIN])
      (by norm_num [BBox.width]) (by norm_num [BBox.height])).2.2.2.2 5⟩

/-- The `Transport.move` leaves the state, duration and looping flag unchanged
(it only writes `position`). -/
theorem Transport.move_preserves (t : Transport) (ts : ℚ) :
    (t.move ts).1.state = t.state ∧ (t.move ts).1.duration = t.duration ∧
    (t.move ts).1.looping = t.looping :=
  ⟨rfl, rfl, rfl⟩

/-- C2: after an external message, the transport is never left running when a
stop is mandated: (a) if a data tick arrives while the transport is Playing
and the mapped position `t = transport.move(timestamp)` exceeds the duration
with looping disabled, `new_data` leaves the transport Paused; (b) a behavior
notice with `active = true` leaves the transport Paused from any prior
state. -/
theorem transport_stop_mandated :
    (∀ (st : EditorState) (msg : DataMsg) (idxs : List Nat),
      st.transport.state = PLAYING → st.transport.looping = false →
      (st.transport.move msg.timestamp).2 > st.transport.duration →
      (new_data st msg idxs).transport.state = PAUSED) ∧
    (∀ (st : EditorState) (b : BehaviorMsg), b.active = true →
      (new_behavior_message st b).transport.state = PAUSED) := by
  constructor
  · intro st msg idxs hplay hloop ht
    have hst : (st.transport.move msg.timestamp).1.state = PLAYING :=
      (Transport.move_preserves st.transport msg.timestamp).1.trans hplay
    have hplaying : (st.transport.move msg.timestamp).1.playing = true := by
      simp [Transport.playing, hst]
    have hdur : (st.transport.move msg.timestamp).1.duration = st.transport.duration :=
      (Transport.move_preserves st.transport msg.timestamp).2.1
    have hcond : ((st.transport.move msg.timestamp).1.playing = true ∧
        (st.transport.move msg.timestamp).2 > (st.transport.move msg.timestamp).1.duration) :=
      ⟨hplaying, hdur ▸ ht⟩
    show (new_data st msg idxs).transport.state = PAUSED
    unfold new_data
    simp only [hplaying, hdur, eq_self_iff_true, true_and]
    rw [if_pos (hdur ▸ ht)]
    rfl
  · intro st b hb
    unfold new_behavior_message
    rw [hb]
    rfl

/-- Witness for C2: a tick at timestamp 2 on a playing, non-looping transport
of duration 1 anchored at 0; a behavior notice on a recording transport. -/
theorem transport_stop_mandated_witness :
    ((EditorState.mk ⟨PLAYING, 0, 1, false, 0⟩ []).transport.state = PLAYING ∧
      (EditorState.mk ⟨PLAYING, 0, 1, false, 0⟩ []).transport.looping = false ∧
      ((EditorState.mk ⟨PLAYING, 0, 1, false, 0⟩ []).transport.move (2 : ℚ)).2
        > (EditorState.mk ⟨PLAYING, 0, 1, false, 0⟩ []).transport.duration ∧
      (new_data ⟨⟨PLAYING, 0, 1, false, 0⟩, []⟩ ⟨2, []⟩ []).transport.state = PAUSED) ∧
    (new_behavior_message ⟨⟨RECORDING, 0, 1, false, 0⟩, []⟩ ⟨true⟩).transport.state
      = PAUSED :=
  ⟨⟨rfl, rfl, by norm_num [Transport.move, Transport.fmod],
      transport_stop_mandated.1 ⟨⟨PLAYING, 0, 1, false, 0⟩, []⟩ ⟨2, []⟩ [] rfl rfl
        (by norm_num [Transport.move, Transport.fmod])⟩,
    transport_stop_mandated.2 ⟨⟨RECORDING, 0, 1, false, 0⟩, []⟩ ⟨true⟩ rfl⟩

/-- C10: `stop_spline_playback` is a guarded no-op from `Paused` — no backend
request, no UI update, transport unchanged, and iterating it any number of
times from Paused still changes nothing; from any other state it emits the
backend stop request (followed by the UI refresh) and pauses the transport. -/
theorem stop_spline_playback_guard (t : Transport) :
    (t.state = PAUSED → stop_spline_playback t = (t, []) ∧
      ∀ n, iterate_stop_spline_playback n t = (t, [])) ∧
    (t.state ≠ PAUSED →
      stop_spline_playback t
        = ({ t with state := PAUSED }, [Effect.stopPlaybackRequest, Effect.uiUpdate])) := by
  constructor
  · intro h
    have hp : t.paused = true := by simp [Transport.paused, h]
    have hpause : stop_spline_playback t = (t, []) := by
      unfold stop_spline_playback
      rw [if_neg (not_not_intro hp)]
    refine ⟨hpause, ?_⟩
    intro n
    induction n with
    | zero => rfl
    | succ k ih =>
      show (let r := stop_spline_playback t
            let r' := iterate_stop_spline_playback k r.1
            ((r'.1, r.2 ++ r'.2) : Transport × List Effect)) = (t, [])
      rw [hpause]
      simp only []
      rw [ih]
      rfl
  · intro h
    have hnp : ¬ t.paused = true := by simp [Transport.paused, h]
    unfold stop_spline_playback
    rw [if_pos hnp]
    rfl

/-- Witness for C10: a paused transport (no-op, also under 3 iterations) and a
playing transport (stop request emitted, transport paused). -/
theorem stop_spline_playback_guard_witness :
    ((Transport.mk PAUSED 0 1 false 0).state = PAUSED ∧
      stop_spline_playback ⟨PAUSED, 0, 1, false, 0⟩ = (⟨PAUSED, 0, 1, false, 0⟩, []) ∧
      iterate_stop_spline_playback 3 ⟨PAUSED, 0, 1, false, 0⟩
        = (⟨PAUSED, 0, 1, false, 0⟩, [])) ∧
    ((Transport.mk PLAYING 0 1 false 0).state ≠ PAUSED ∧
      stop_spline_playback ⟨PLAYING, 0, 1, false, 0⟩
        = (⟨PAUSED, 0, 1, false, 0⟩, [Effect.stopPlaybackRequest, Effect.uiUpdate])) :=
  ⟨⟨rfl, ((stop_spline_playback_guard ⟨PAUSED, 0, 1, false, 0⟩).1 rfl).1,
      ((stop_spline_playback_guard ⟨PAUSED, 0, 1, false, 0⟩).1 rfl).2 3⟩,
    ⟨by decide, (stop_spline_playback_guard ⟨PLAYING, 0, 1, false, 0⟩).2 (by decide)⟩⟩

/-- C9: `copy()` returns a spline structurally equal to the original (in
particular with an equal `bbox()`), and the copy's knot and coefficient
storage is independent: overwriting the copy's arrays never changes the
original's dereferenced value, and overwriting the original's arrays never
changes the copy's dereferenced value. -/
theorem copy_deep_isolation (st : Store) (r : Ref)
    (hc : r.cId < st.c2.length) (hx : r.xId < st.x1.length) :
    (copy_heap st r).1.valueOf (copy_heap st r).2 = st.valueOf r ∧
    ((copy_heap st r).1.valueOf (copy_heap st r).2).bbox = (st.valueOf r).bbox ∧
    (∀ v w, (((copy_heap st r).1.setC (copy_heap st r).2.cId v).setX
        (copy_heap st r).2.xId w).valueOf r = st.valueOf r) ∧
    (∀ v w, (((copy_heap st r).1.setC r.cId v).setX r.xId w).valueOf
        (copy_heap st r).2 = st.valueOf r) := by
  have hcne : st.c2.length ≠ r.cId := by omega
  have hxne : st.x1.length ≠ r.xId := by omega
  have h1 : (copy_heap st r).1.valueOf (copy_heap st r).2 = st.valueOf r := by
    unfold copy_heap Store.allocC Store.allocX Store.valueOf Store.getC Store.getX
    simp only []
    rw [getD_append_length, getD_append_length]
  refine ⟨h1, congrArg BPoly.bbox h1, ?_, ?_⟩
  · intro v w
    unfold copy_heap Store.allocC Store.allocX Store.setC Store.setX
      Store.valueOf Store.getC Store.getX
    simp only []
    rw [getD_set_ne _ _ _ _ _ hcne, getD_set_ne _ _ _ _ _ hxne,
      getD_append_left _ _ _ _ hc, getD_append_left _ _ _ _ hx]
  · intro v w
    unfold copy_heap Store.allocC Store.allocX Store.setC Store.setX
      Store.valueOf Store.getC Store.getX
    simp only []
    rw [getD_set_ne _ _ _ _ _ (Ne.symm hcne), getD_set_ne _ _ _ _ _ (Ne.symm hxne),
      getD_append_length, getD_append_length]

/-- Witness for C9 at a one-object store. -/
theorem copy_deep_isolation_witness :
    (Ref.mk 0 0).cId < (Store.mk [[[2, 3]]] [[0, 1]]).c2.length ∧
    (Ref.mk 0 0).xId < (Store.mk [[[2, 3]]] [[0, 1]]).x1.length ∧
    ((copy_heap ⟨[[[2, 3]]], [[0, 1]]⟩ ⟨0, 0⟩).1.valueOf
        (copy_heap ⟨[[[2, 3]]], [[0, 1]]⟩ ⟨0, 0⟩).2
      = Store.valueOf ⟨[[[2, 3]]], [[0, 1]]⟩ ⟨0, 0⟩ ∧
    ((copy_heap ⟨[[[2, 3]]], [[0, 1]]⟩ ⟨0, 0⟩).1.valueOf
        (copy_heap ⟨[[[2, 3]]], [[0, 1]]⟩ ⟨0, 0⟩).2).bbox
      = (Store.valueOf ⟨[[[2, 3]]], [[0, 1]]⟩ ⟨0, 0⟩).bbox ∧
    (∀ v w, (((copy_heap ⟨[[[2, 3]]], [[0, 1]]⟩ ⟨0, 0⟩).1.setC
          (copy_heap ⟨[[[2, 3]]], [[0, 1]]⟩ ⟨0, 0⟩).2.cId v).setX
          (copy_heap ⟨[[[2, 3]]], [[0, 1]]⟩ ⟨0, 0⟩).2.xId w).valueOf ⟨0, 0⟩
        = Store.valueOf ⟨[[[2, 3]]], [[0, 1]]⟩ ⟨0, 0⟩) ∧
    (∀ v w, (((copy_heap ⟨[[[2, 3]]], [[0, 1]]⟩ ⟨0, 0⟩).1.setC (Ref.mk 0 0).cId v).setX
          (Ref.mk 0 0).xId w).valueOf (copy_heap ⟨[[[2, 3]]], [[0, 1]]⟩ ⟨0, 0⟩).2
        = Store.valueOf ⟨[[[2, 3]]], [[0, 1]]⟩ ⟨0, 0⟩)) :=
  ⟨by decide, by decide,
    copy_deep_isolation ⟨[[[2, 3]]], [[0, 1]]⟩ ⟨0, 0⟩ (by decide) (by decide)⟩

/-- C1 (failing input): the `hiking` ("Slow down motion", stretch by 2)
toolbar operation mutates the spline snapshot already stored in history.
The snapshot's coefficient array holds `2`, outside the motor limit box
`y ∈ [0, 1]`; `stretch_spline` returns a working copy that reuses the
snapshot's coefficient array, and `restrict_to_bbox` clamps that shared
array in place before capture, so the stored snapshot's coefficient changes
from `2` to `1` — the snapshot is not structurally unchanged. -/
theorem stretch_pipeline_mutates_history_snapshot :
    (Store.valueOf ⟨[[[2]]], [[0, 1]]⟩ (History.retrieve ⟨[⟨0, 0⟩], 0⟩)).c = [[2]] ∧
    ((stretch_toolbar_handler ⟨[[[2]]], [[0, 1]]⟩ ⟨[⟨0, 0⟩], 0⟩ 2
        ⟨(0, 0), (100, 1)⟩).1.valueOf (History.retrieve ⟨[⟨0, 0⟩], 0⟩)).c = [[1]] := by
  constructor
  · rfl
  · decide

/-- C7: drag gesture decomposition with the focal point `mid` computed by the
begin callback: a purely horizontal drag (`dy = 0`) leaves the viewport width
unchanged and translates both edges by `-dx * origWidth / displayWidth`; a
purely vertical drag (`dx = 0`) maps each edge to
`factor * (origEdge - mid) + mid` with `factor = exp(-0.01 * dy)`, and `mid`
is a fixed point of the edge map. -/
theorem drag_gesture_decomposition (orig : ViewR) (ptx cw : ℝ) (s e : ℝ × ℝ)
    (hcw : cw ≠ 0) :
    (e.2 = s.2 →
      (drag_update orig (drag_begin_mid orig ptx) cw s e).width = orig.width ∧
      (drag_update orig (drag_begin_mid orig ptx) cw s e).left
        = orig.left - (e.1 - s.1) / cw * orig.width ∧
      (drag_update orig (drag_begin_mid orig ptx) cw s e).right
        = orig.right - (e.1 - s.1) / cw * orig.width) ∧
    (e.1 = s.1 →
      ((drag_update orig (drag_begin_mid orig ptx) cw s e).left
          = Real.exp (-0.01 * (e.2 - s.2)) * (orig.left - drag_begin_mid orig ptx)
            + drag_begin_mid orig ptx ∧
        (drag_update orig (drag_begin_mid orig ptx) cw s e).right
          = Real.exp (-0.01 * (e.2 - s.2)) * (orig.right - drag_begin_mid orig ptx)
            + drag_begin_mid orig ptx) ∧
      drag_edge_map (drag_begin_mid orig ptx) (-(e.1 - s.1) / cw * orig.width)
          (Real.exp (-0.01 * (e.2 - s.2))) (drag_begin_mid orig ptx)
        = drag_begin_mid orig ptx) := by
  constructor
  · intro hy
    simp only [drag_update, drag_edge_map, ViewR.width]
    rw [hy]
    simp only [sub_self, mul_zero, Real.exp_zero]
    refine ⟨by ring_nf, by ring_nf, by ring_nf⟩
  · intro hx
    simp only [drag_update, drag_edge_map, ViewR.width]
    rw [hx]
    simp only [sub_self, neg_zero, zero_div, zero_mul, add_zero]
    refine ⟨⟨by ring_nf, by ring_nf⟩, by ring_nf⟩

/-- Witness for C7: a purely horizontal drag from `(5, 7)` to `(3, 7)` over
the viewport `[0, 2]` with display width `100` leaves the width unchanged. -/
theorem drag_gesture_decomposition_witness :
    (100 : ℝ) ≠ 0 ∧
    (drag_update ⟨0, 2⟩ (drag_begin_mid ⟨0, 2⟩ 1) 100 (5, 7) (3, 7)).width
      = (ViewR.mk 0 2).width :=
  ⟨by norm_num,
    ((drag_gesture_decomposition ⟨0, 2⟩ 1 100 (5, 7) (3, 7) (by norm_num)).1 rfl).1⟩

end Being
